import Mathlib

/-!
Shallow embedding of the timetable-to-GTFS transformation core of the
PKPIntercityGTFS repository, covering both generations of the converter
present in the sources:

* `pkpic.py` — functions `row_dep_only`, `row_arr_only`, `train_loader`,
  `train_legs`, `time_to_list` based time fixing, and the core of
  `PKPIntercityGTFS.save_trips` / `save_stops` / `save_transfers`;
* `pkpic_gtfs/load_csv.py` — `train_rows`, `parse_train`, `parse_time`,
  `normalize_platform`.

Modelling conventions:

* Python strings are `List Char` (`Str`); Python `a or b` on strings is
  `strOr` (empty list is falsy).  `str.upper` / `str.lower` / `str.title`
  are modelled code-point-wise with `Char.toUpper` / `Char.toLower`
  (exact on the ASCII range).
* A CSV record is a `Row` whose fields carry the columns the core reads.
  The two time columns are `Option HMS`: `none` models the empty string
  (both implementations crash on a non-empty unparseable time, so only
  parseable or empty values are represented); `some ⟨h, m, s⟩` models a
  parsed "HH:MM:SS" value, `h` may exceed 23.  `Lp` and `BUS` are carried
  already converted to `Nat` (the code converts them with `int(...)` at
  every use), `DrogaKumulowanaMetry` as `Int`.
* Python `[h, m, s]` list comparison is lexicographic: `hmsLt`.
* Python `set` accumulators are lists with membership-checked insertion
  (`setAdd`), which preserves exactly the set's content and multiplicity.
* CSV output files are lists of records (`TripRec`, `StopTimeRec`,
  transfer triples); printing and file I/O are elided.
* `itertools.groupby` keyed by `("DataOdjazdu", "NrPociagu")` has the same
  observable grouping behaviour as `train_loader`'s accumulator loop, so
  `load_csv.train_rows` reuses the `train_loaderGo` embedding on the
  filtered row stream.
-/

abbrev Str := List Char

/-- A parsed "HH:MM:SS" value, as produced by `time_to_list` in pkpic.py.
The hour may exceed 23, and grows by 24 during day-rollover fixing. -/
structure HMS where
  h : Nat
  m : Nat
  s : Nat
deriving DecidableEq, Repr

/-- Python list comparison `[h, m, s] < [h', m', s']`: lexicographic. -/
def hmsLt (a b : HMS) : Bool :=
  decide (a.h < b.h) ||
    (decide (a.h = b.h) &&
      (decide (a.m < b.m) || (decide (a.m = b.m) && decide (a.s < b.s))))

/-- One CSV record of KPD_Rozklad.csv, restricted to the columns the
conversion core reads. -/
structure Row where
  dataOdjazdu : Str
  nrPociagu : Str
  lp : Nat
  stacjaHandlowa : Str
  numerStacji : Str
  nazwaStacji : Str
  przyjazd : Option HMS
  odjazd : Option HMS
  peronWjazd : Str
  peronWyjazd : Str
  torWjazd : Str
  torWyjazd : Str
  bus : Nat
  kategoriaHandlowa : Str
  nrPociaguHandlowy : Str
  nazwaPociagu : Str
  droga : Int
deriving DecidableEq, Inhabited, Repr

/-- Python `a or b` for strings: `a` when non-empty, else `b`. -/
def strOr (a b : Str) : Str :=
  if a = [] then b else a

/-- Python `a or b` for possibly-empty time fields. -/
def optOr (a b : Option HMS) : Option HMS :=
  if a = none then b else a

/-- Python `str.upper`, code-point-wise (exact on ASCII). -/
def upperStr (s : Str) : Str :=
  s.map Char.toUpper

/-- Insertion into a Python `set`, modelled as a duplicate-free list. -/
def setAdd {α : Type} [DecidableEq α] (s : List α) (x : α) : List α :=
  if x ∈ s then s else s ++ [x]

/-- Python `str(n)` for a natural number. -/
def natToStr (n : Nat) : Str :=
  Nat.toDigits 10 n

/-- Helper for `titleStr`: tracks whether the previous character was
alphabetic, as Python's `str.title` does. -/
def titleGo : Bool → Str → Str
  | _, [] => []
  | prevAlpha, c :: rest =>
      (if c.isAlpha then (if prevAlpha then c.toLower else c.toUpper) else c)
        :: titleGo c.isAlpha rest

/-- Python `str.title`, code-point-wise (exact on ASCII). -/
def titleStr (s : Str) : Str :=
  titleGo false s

/-- Python `s.replace("  ", " ")`: left-to-right non-overlapping. -/
def replaceDoubleSpace : Str → Str
  | ' ' :: ' ' :: rest => ' ' :: replaceDoubleSpace rest
  | c :: rest => c :: replaceDoubleSpace rest
  | [] => []

/-- Python `s.replace("Zka", "ZKA")`: left-to-right non-overlapping. -/
def replaceZka : Str → Str
  | 'Z' :: 'k' :: 'a' :: rest => 'Z' :: 'K' :: 'A' :: replaceZka rest
  | c :: rest => c :: replaceZka rest
  | [] => []

/-- Python `s.replace("/", "-")`. -/
def replaceSlash (s : Str) : Str :=
  s.map (fun c => if c = '/' then '-' else c)

/-- The `time_to_list` call on a row's time field.  The source crashes on
an empty string; the embedding only ever applies this to parseable
fields, so `none` is given a junk value. -/
def hmsOf (t : Option HMS) : HMS :=
  t.getD ⟨0, 0, 0⟩

/-- Whether `needle` is a prefix of `hay` (helper for Python's `in`). -/
def prefixOfB : Str → Str → Bool
  | [], _ => true
  | _ :: _, [] => false
  | a :: as, b :: bs => decide (a = b) && prefixOfB as bs

/-- Python's substring test `needle in hay`. -/
def substrB (needle : Str) : Str → Bool
  | [] => prefixOfB needle []
  | c :: rest => prefixOfB needle (c :: rest) || substrB needle rest

/-- The `FIX_STOPS` manual override table of pkpic.py. -/
def FIX_STOPS : List (Str × Str) :=
  [("BOHUMIN".toList, "BOGUMIN".toList),
   ("RABKA ZDRÓJ".toList, "RABKA-ZDRÓJ".toList),
   ("MOSTISKA 2".toList, "MOŚCISKA 2".toList),
   ("PIWNICZNA ZDRÓJ".toList, "PIWNICZNA-ZDRÓJ".toList),
   ("KUDOWA ZDRÓJ".toList, "KUDOWA-ZDRÓJ".toList),
   ("PETROVICE U KARVINE".toList, "PETROVICE U KARVINÉ".toList),
   ("WARSZAWA ZACHODNIA P8".toList, "WARSZAWA ZACHODNIA (PERON 8)".toList),
   ("KRYNICA".toList, "KRYNICA ZDRÓJ".toList),
   ("GUTKOWO".toList, "OLSZTYN GUTKOWO".toList),
   ("NAKŁO N/NOTECIĄ".toList, "NAKŁO NAD NOTECIĄ".toList),
   ("CHEŁM".toList, "CHEŁM GŁÓWNY".toList),
   ("JAGODIN".toList, "JAGODZIN".toList),
   ("CZECHOWICE DZIEDZICE".toList, "CZECHOWICE-DZIEDZICE".toList),
   ("RUDNIK N/SANEM".toList, "RUDNIK NAD SANEM".toList),
   ("MAŁASZEWICZE PRZYSTANEK".toList, "MAŁASZEWICZE".toList),
   ("GORZÓW WIELKOPOLSKI TEATRALNA".toList, "GORZÓW WIELKOPOLSKI WSCHODNI".toList),
   ("SKALITE".toList, "SKALITÉ".toList),
   ("SKARŻYSKO KAMIENNA".toList, "SKARŻYSKO-KAMIENNA".toList),
   ("KĘDZIERZYN KOŹLE".toList, "KĘDZIERZYN-KOŹLE".toList),
   ("STRZYŻÓW N/WISŁOKIEM".toList, "STRZYŻÓW NAD WISŁOKIEM".toList),
   ("BREST CENTRALNY".toList, "BRZEŚĆ CENTRALNY".toList),
   ("FRANKFURT/ODER".toList, "FRANKFURT (ODER)".toList),
   ("KUŹNICA".toList, "KUŹNICA (HEL)".toList),
   ("WIELEŃ PÓŁNOCNY".toList, "WIELEŃ".toList)]

/-- `FIX_STOPS.get(stop_name, stop_name)` of pkpic.py. -/
def fixStop (name : Str) : Str :=
  (List.lookup name FIX_STOPS).getD name

/-- `row_dep_only` of pkpic.py: copy of a row with only departure data;
arrival-side fields are backfilled from the departure side. -/
def row_dep_only (row : Row) (set_bus : Option Nat) : Row :=
  let row := match set_bus with
    | some b => { row with bus := b }
    | none => row
  { row with
      przyjazd := optOr row.odjazd row.przyjazd,
      peronWjazd := strOr row.peronWyjazd row.peronWjazd,
      torWjazd := strOr row.torWyjazd row.torWjazd }

/-- `row_arr_only` of pkpic.py: copy of a row with only arrival data;
departure-side fields are backfilled from the arrival side. -/
def row_arr_only (row : Row) (set_bus : Option Nat) : Row :=
  let row := match set_bus with
    | some b => { row with bus := b }
    | none => row
  { row with
      odjazd := optOr row.przyjazd row.odjazd,
      peronWyjazd := strOr row.peronWjazd row.peronWyjazd,
      torWyjazd := strOr row.torWjazd row.torWyjazd }

/-- Loop body of `train_legs` of pkpic.py: `prevBus` is
`previous_bus_value` (`none` = Python `None`), `leg` is `leg_so_far`. -/
def train_legsGo (prevBus : Option Nat) (leg : List Row) : List Row → List (List Row)
  | [] => if 1 < leg.length then [leg] else []
  | r :: rest =>
      if some r.bus ≠ prevBus then
        (if 1 < leg.length then [leg ++ [row_arr_only r (some (r.bus ^^^ 1))]] else [])
          ++ train_legsGo (some r.bus) [row_dep_only r none] rest
      else
        train_legsGo prevBus (leg ++ [r]) rest

/-- `train_legs` of pkpic.py: split a train's rows into legs at bus-flag
changes. -/
def train_legs (rows : List Row) : List (List Row) :=
  train_legsGo none [] rows

/-- The grouping key `(row["DataOdjazdu"], row["NrPociagu"])`. -/
def rowKey (r : Row) : Str × Str :=
  (r.dataOdjazdu, r.nrPociagu)

/-- Loop body of `train_loader` of pkpic.py: `prevId` is
`previous_train_id` (`none` = Python `None`), `acc` is
`previous_train_data`. -/
def train_loaderGo (prevId : Option (Str × Str)) (acc : List Row) : List Row → List (List Row)
  | [] => if acc = [] then [] else [acc]
  | r :: rest =>
      if prevId ≠ some (rowKey r) then
        (if acc = [] then [] else [acc]) ++ train_loaderGo (some (rowKey r)) [r] rest
      else
        train_loaderGo prevId (acc ++ [r]) rest

/-- `train_loader` of pkpic.py: group the CSV rows into trains keyed by
`(DataOdjazdu, NrPociagu)`, flushing a group whenever the key changes. -/
def train_loader (rows : List Row) : List (List Row) :=
  train_loaderGo none [] rows

/-- The `while x < bound: x[0] += 24` loops of `save_trips` in pkpic.py:
add 24 hours until the value is no longer lexicographically below the
bound.  Used for both the arrival bound (`previous_dep`) and the
departure bound (the fixed arrival). -/
def bumpArr (t prev : HMS) : HMS :=
  if h : hmsLt t prev then bumpArr ⟨t.h + 24, t.m, t.s⟩ prev else t
termination_by prev.h + 1 - t.h
decreasing_by
  simp only [hmsLt, Bool.or_eq_true, Bool.and_eq_true, decide_eq_true_eq] at h
  omega

/-- The platform computation of `save_trips` in pkpic.py lines 459-468:
"BUS"/"NULL" placeholders (case-insensitive) become empty, then the
departure platform wins over the arrival platform. -/
def platform_of (peronWjazd peronWyjazd : Str) : Str :=
  let platformArr := if upperStr peronWjazd ∈ [("BUS").toList, ("NULL").toList] then [] else peronWjazd
  let platformDep := if upperStr peronWyjazd ∈ [("BUS").toList, ("NULL").toList] then [] else peronWyjazd
  strOr platformDep platformArr

/-- One row written to gtfs/trips.txt by pkpic.py. -/
structure TripRec where
  routeId : Str
  serviceId : Str
  tripId : Str
  headsign : Str
  shortName : Str
deriving DecidableEq, Repr

/-- One row written to gtfs/stop_times.txt by pkpic.py (the file has no
distance column). -/
structure StopTimeRec where
  tripId : Str
  seq : Nat
  stopId : Str
  arr : HMS
  dep : HMS
  platform : Str
deriving DecidableEq, Repr

/-- The mutable accumulators of the `PKPIntercityGTFS` object that
`save_trips` updates: the Python sets are duplicate-free lists, the
transfer list is ordered. -/
structure EmitState where
  stopsUsed : List (Str × Str)
  stopsInvalid : List (Str × Str)
  routes : List Str
  services : List Str
  transfers : List (Str × Str × Str)
deriving DecidableEq, Repr

/-- The initial accumulator state of a run. -/
def emptyState : EmitState :=
  ⟨[], [], [], [], []⟩

/-- The per-row loop shared by both branches of `save_trips` in pkpic.py:
reconcile the stop name, fix the times against the running
`previous_dep`, compute the platform, and either emit a stop-time row or
record the stop as invalid.  Returns the updated state, the final
`previous_dep`, and the emitted stop-time rows in order. -/
def emitLegRows (stops : List Str) (tripId : Str) :
    Nat → HMS → EmitState → List Row → EmitState × HMS × List StopTimeRec
  | _, prevDep, st, [] => (st, prevDep, [])
  | seq, prevDep, st, r :: rest =>
      let stopName := fixStop (upperStr r.nazwaStacji)
      if stopName ∈ stops then
        let arr := bumpArr (hmsOf r.przyjazd) prevDep
        let dep := bumpArr (hmsOf r.odjazd) arr
        let st' := { st with stopsUsed := setAdd st.stopsUsed (r.numerStacji, stopName) }
        let out := emitLegRows stops tripId (seq + 1) dep st' rest
        (out.1, out.2.1,
          ⟨tripId, seq, r.numerStacji, arr, dep, platform_of r.peronWjazd r.peronWyjazd⟩ :: out.2.2)
      else
        let st' := { st with stopsInvalid := setAdd st.stopsInvalid (r.numerStacji, stopName) }
        emitLegRows stops tripId (seq + 1) prevDep st' rest

/-- The multi-leg loop of `save_trips` in pkpic.py (lines 482-545):
`suffix` is `leg_suffix`, `prevDep` carries `previous_dep` across legs.
For every leg it emits a trip row, and for every leg after the first it
unconditionally appends a transfer at the leg's first station code. -/
def emitLegs (stops : List Str) (trainId serviceId category headsign gtfsName : Str) :
    Nat → HMS → EmitState → List (List Row) → EmitState × List TripRec × List StopTimeRec
  | _, _, st, [] => (st, [], [])
  | suffix, prevDep, st, legRows :: rest =>
      let legId := trainId ++ ("_").toList ++ natToStr suffix
      let legIsBus := (legRows.headD default).bus = 1
      let legCat := if legIsBus then ("ZKA ").toList ++ category else category
      let st := { st with
        routes := setAdd st.routes legCat,
        services := setAdd st.services serviceId }
      let st := if 0 < suffix then
          { st with transfers := st.transfers ++
              [((legRows.headD default).numerStacji,
                trainId ++ ("_").toList ++ natToStr (suffix - 1), legId)] }
        else st
      let out := emitLegRows stops legId 0 prevDep st legRows
      let next := emitLegs stops trainId serviceId category headsign gtfsName (suffix + 1) out.2.1 out.1 rest
      (next.1, ⟨legCat, serviceId, legId, headsign, gtfsName⟩ :: next.2.1, out.2.2 ++ next.2.2)

/-- The body of the `for train_rows in train_loader(...)` loop of
`save_trips` in pkpic.py: filter to commercial stations, sort by `Lp`
(Python's stable `sorted` is modelled by the stable `insertionSort`),
drop degenerate trains, then emit either the single-leg or the multi-leg
shape. -/
def processTrain (stops : List Str) (st : EmitState) (trainRows : List Row) :
    EmitState × List TripRec × List StopTimeRec :=
  let validRows := List.insertionSort (fun a b => a.lp ≤ b.lp)
    (trainRows.filter (fun r => decide (r.stacjaHandlowa = ("1").toList)))
  if validRows.length ≤ 1 then (st, [], [])
  else
    let category := replaceDoubleSpace (trainRows.headD default).kategoriaHandlowa
    let number := (trainRows.headD default).nrPociaguHandlowy
    let name := (trainRows.headD default).nazwaPociagu
    let serviceId := (trainRows.headD default).dataOdjazdu
    let trainId := serviceId ++ ("_").toList ++ replaceSlash (trainRows.headD default).nrPociagu
    let headsign := (validRows.getLastD default).nazwaStacji
    let gtfsName :=
      if name ≠ [] ∧ substrB number name then replaceZka (titleStr name)
      else if name ≠ [] then number ++ (" ").toList ++ titleStr name
      else number
    let multipleLegs := 1 < (validRows.map (fun r => r.bus)).dedup.length
    if ¬ multipleLegs then
      let isBus := (validRows.headD default).bus = 1
      let category := if isBus then ("ZKA ").toList ++ category else category
      let st := { st with
        routes := setAdd st.routes category,
        services := setAdd st.services serviceId }
      let out := emitLegRows stops trainId 0 ⟨0, 0, 0⟩ st validRows
      (out.1, [⟨category, serviceId, trainId, headsign, gtfsName⟩], out.2.2)
    else
      emitLegs stops trainId serviceId category headsign gtfsName 0 ⟨0, 0, 0⟩ st (train_legs validRows)

/-- One iteration of the `for train_rows in train_loader(...)` loop of
`save_trips`: run `processTrain` and append its outputs. -/
def saveTripsStep (stops : List Str) (acc : EmitState × List TripRec × List StopTimeRec)
    (g : List Row) : EmitState × List TripRec × List StopTimeRec :=
  let out := processTrain stops acc.1 g
  (out.1, acc.2.1 ++ out.2.1, acc.2.2 ++ out.2.2)

/-- The whole `save_trips` pass of pkpic.py over a CSV: fold
`processTrain` over the groups of `train_loader`, collecting the
accumulator state, the trips file and the stop-times file. -/
def saveTrips (stops : List Str) (csv : List Row) : EmitState × List TripRec × List StopTimeRec :=
  (train_loader csv).foldl (saveTripsStep stops) (emptyState, [], [])

/-- Specification-side description of the transfers the multi-leg loop
produces, written from the spec's words for comparison with the code:
one record per consecutive leg pair, at the later leg's first station
code, linking the suffixed trip ids — with no condition on the canonical
stop set. -/
def transfersSpec (trainId : Str) : Nat → List (List Row) → List (Str × Str × Str)
  | _, [] => []
  | suffix, leg :: rest =>
      (if 0 < suffix then
          [((leg.headD default).numerStacji,
            trainId ++ ("_").toList ++ natToStr (suffix - 1),
            trainId ++ ("_").toList ++ natToStr suffix)]
        else [])
        ++ transfersSpec trainId (suffix + 1) rest

/-- The `ROMAN_TO_ARABIC` table of load_csv.py. -/
def ROMAN_TO_ARABIC : List (Str × Str) :=
  [(("I").toList, ("1").toList),
   (("II").toList, ("2").toList),
   (("III").toList, ("3").toList),
   (("IV").toList, ("4").toList),
   (("V").toList, ("5").toList),
   (("VI").toList, ("6").toList),
   (("VII").toList, ("7").toList),
   (("VIII").toList, ("8").toList),
   (("IX").toList, ("9").toList),
   (("X").toList, ("10").toList),
   (("XI").toList, ("11").toList),
   (("XII").toList, ("12").toList)]

/-- `normalize_platform` of load_csv.py: strip one trailing 'a', map a
Roman numeral base through `ROMAN_TO_ARABIC`, re-attach the suffix. -/
def normalize_platform (x : Str) : Str :=
  let p := if x.getLast? = some 'a' then (x.dropLast, ['a']) else (x, ([] : Str))
  ((List.lookup p.1 ROMAN_TO_ARABIC).getD p.1) ++ p.2

/-- `parse_time` of load_csv.py: seconds since midnight.  As with
`hmsOf`, the source crashes on an empty field, so `none` gets junk. -/
def parse_time (t : Option HMS) : Nat :=
  let x := t.getD ⟨0, 0, 0⟩
  x.h * 3600 + x.m * 60 + x.s

/-- The platform computation of `parse_train` in load_csv.py lines
124-129: bus rows get the literal "BUS", otherwise the
departure-else-arrival platform is normalized. -/
def lcsv_platform (r : Row) : Str :=
  if r.bus = 1 ∨ r.peronWyjazd = ("BUS").toList then ("BUS").toList
  else normalize_platform (strOr r.peronWyjazd r.peronWjazd)

/-- One `impuls.model.Trip` created by `parse_train` of load_csv.py. -/
structure LTrip where
  id : Str
  routeId : Str
  calendarId : Str
  shortName : Str
deriving DecidableEq, Repr

/-- One `impuls.model.StopTime` created by `parse_train` of load_csv.py;
`fareDist` and `stopName` model the extra-fields JSON payload. -/
structure LStopTime where
  tripId : Str
  stopId : Str
  seq : Nat
  arr : Nat
  dep : Nat
  platform : Str
  fareDist : Int
  stopName : Str
deriving DecidableEq, Repr

/-- The stop-time loop of `parse_train` in load_csv.py: `idx` is the
enumeration index, `prevDep` the previous departure in seconds; 24 hours
(86400 s) is added at most once to each of arrival and departure. -/
def parse_train_go (tripId : Str) (distOffset : Int) :
    Nat → Nat → List Row → List LStopTime
  | _, _, [] => []
  | idx, prevDep, r :: rest =>
      let arr0 := parse_time r.przyjazd
      let arr := if arr0 < prevDep then arr0 + 86400 else arr0
      let dep0 := parse_time r.odjazd
      let dep := if dep0 < arr then dep0 + 86400 else dep0
      ⟨tripId, r.numerStacji, idx, arr, dep, lcsv_platform r, r.droga - distOffset, r.nazwaStacji⟩
        :: parse_train_go tripId distOffset (idx + 1) dep rest

/-- `parse_train` of load_csv.py: one Trip and its StopTimes from a
train's (non-empty) commercial rows. -/
def parse_train (rows : List Row) : LTrip × List LStopTime :=
  let r0 := rows.headD default
  let category := replaceDoubleSpace r0.kategoriaHandlowa
  let name := r0.nazwaPociagu
  let number0 := r0.nrPociaguHandlowy
  let calendarId := r0.dataOdjazdu
  let tripId := calendarId ++ ("_").toList ++ replaceSlash r0.nrPociagu
  let number := if number0 = [] then r0.nrPociagu.takeWhile (fun c => c ≠ '/') else number0
  let displayName :=
    if name ≠ [] ∧ substrB number name then replaceZka (titleStr name)
    else if name ≠ [] then number ++ (" ").toList ++ titleStr name
    else number
  (⟨tripId, category, calendarId, displayName⟩, parse_train_go tripId r0.droga 0 0 rows)

/-- `train_rows` of load_csv.py: filter to commercial rows, then group by
`(DataOdjazdu, NrPociagu)` (`itertools.groupby` groups consecutive equal
keys, exactly as `train_loaderGo` does). -/
def lcsv_train_rows (csv : List Row) : List (List Row) :=
  train_loader (csv.filter (fun r => decide (r.stacjaHandlowa = ("1").toList)))

/-- The output of `LoadCSV.execute` of load_csv.py: one
`(Trip, StopTimes)` pair per group. -/
def loadCSV_execute (csv : List Row) : List (LTrip × List LStopTime) :=
  (lcsv_train_rows csv).map parse_train

/-- Python string comparison `a < b`: lexicographic on code points. -/
def strLtB : Str → Str → Bool
  | [], [] => false
  | [], _ :: _ => true
  | _ :: _, [] => false
  | a :: as, b :: bs => decide (a < b) || (decide (a = b) && strLtB as bs)

/-- Order on grouping keys `(DataOdjazdu, NrPociagu)`: lexicographic with
Python string comparison, non-strict. -/
def keyLe (a b : Str × Str) : Prop :=
  strLtB a.1 b.1 = true ∨ (a.1 = b.1 ∧ (strLtB a.2 b.2 = true ∨ a.2 = b.2))

/-- The documented input precondition of the Row Grouper: rows sorted by
(service date, train number, sequence position). -/
def rowLe (a b : Row) : Prop :=
  strLtB a.dataOdjazdu b.dataOdjazdu = true ∨
    (a.dataOdjazdu = b.dataOdjazdu ∧
      (strLtB a.nrPociagu b.nrPociagu = true ∨
        (a.nrPociagu = b.nrPociagu ∧ a.lp ≤ b.lp)))

/-- The grouping key of an emitted group (groups are non-empty). -/
def groupKey (g : List Row) : Str × Str :=
  rowKey (g.headD default)

instance : DecidableRel rowLe :=
  fun a b => by unfold rowLe; infer_instance

instance keyLe.instDecidable : ∀ a b, Decidable (keyLe a b) :=
  fun a b => by unfold keyLe; infer_instance

/-- A template commercial row used to build the concrete rows of the
evaluation theorems below. -/
def baseRow : Row where
  dataOdjazdu := "2024-01-02".toList
  nrPociagu := "12345".toList
  lp := 1
  stacjaHandlowa := "1".toList
  numerStacji := "100".toList
  nazwaStacji := "AAA".toList
  przyjazd := some ⟨10, 0, 0⟩
  odjazd := some ⟨10, 5, 0⟩
  peronWjazd := []
  peronWyjazd := []
  torWjazd := []
  torWyjazd := []
  bus := 0
  kategoriaHandlowa := "IC".toList
  nrPociaguHandlowy := "12345".toList
  nazwaPociagu := []
  droga := 0

/-- Scenario-B-shaped train, row 1: train mode. -/
def c1r1 : Row :=
  { baseRow with lp := 1, bus := 0 }

/-- Scenario-B-shaped train, row 2: flips to bus mode. -/
def c1r2 : Row :=
  { baseRow with lp := 2, bus := 1, numerStacji := "200".toList, nazwaStacji := "BBB".toList }

/-- Scenario-B-shaped train, row 3 (the last row): flips back to train. -/
def c1r3 : Row :=
  { baseRow with lp := 3, bus := 0, numerStacji := "300".toList, nazwaStacji := "CCC".toList }

/-- Overnight train, stop 1: arrival 23:00:00, departure 23:30:00. -/
def c2r1 : Row :=
  { baseRow with lp := 1, przyjazd := some ⟨23, 0, 0⟩, odjazd := some ⟨23, 30, 0⟩ }

/-- Overnight train, stop 2: arrival 00:10:00, departure 23:50:00 (a
nearly-day-long dwell over midnight). -/
def c2r2 : Row :=
  { baseRow with lp := 2, numerStacji := "200".toList, przyjazd := some ⟨0, 10, 0⟩, odjazd := some ⟨23, 50, 0⟩ }

/-- Overnight train, stop 3: arrival 10:00:00, departure 10:05:00. -/
def c2r3 : Row :=
  { baseRow with lp := 3, numerStacji := "300".toList, przyjazd := some ⟨10, 0, 0⟩, odjazd := some ⟨10, 5, 0⟩ }

/-- A train whose only row is commercial. -/
def c3row : Row :=
  baseRow

/-- A row of a non-commercial station. -/
def c3ncRow : Row :=
  { baseRow with stacjaHandlowa := "0".toList }

/-- Second row of a two-stop single-mode train. -/
def c4r2 : Row :=
  { baseRow with lp := 2, numerStacji := "200".toList, nazwaStacji := "BBB".toList }

/-- Train A (key 2024-01-02/1), row at the shared station code "1" under
display name "AAA". -/
def c5a1 : Row :=
  { baseRow with nrPociagu := "1".toList, lp := 1, numerStacji := "1".toList, nazwaStacji := "AAA".toList }

/-- Train A, second row. -/
def c5a2 : Row :=
  { baseRow with nrPociagu := "1".toList, lp := 2, numerStacji := "2".toList, nazwaStacji := "AB".toList }

/-- Train B (key 2024-01-03/2), row at the same station code "1" but
under a different display name "BBB". -/
def c5b1 : Row :=
  { baseRow with dataOdjazdu := "2024-01-03".toList, nrPociagu := "2".toList, lp := 1, numerStacji := "1".toList, nazwaStacji := "BBB".toList }

/-- Train B, second row. -/
def c5b2 : Row :=
  { baseRow with dataOdjazdu := "2024-01-03".toList, nrPociagu := "2".toList, lp := 2, numerStacji := "3".toList, nazwaStacji := "BC".toList }

/-- Two-leg train, rows 1-2: train mode. -/
def c6r1 : Row :=
  { baseRow with lp := 1, bus := 0 }

/-- Two-leg train, row 2. -/
def c6r2 : Row :=
  { baseRow with lp := 2, bus := 0, numerStacji := "200".toList, nazwaStacji := "BBB".toList }

/-- Two-leg train, row 3: flips to bus; the coupling stop of the pair. -/
def c6r3 : Row :=
  { baseRow with lp := 3, bus := 1, numerStacji := "300".toList, nazwaStacji := "CCC".toList }

/-- Two-leg train, row 4: stays bus. -/
def c6r4 : Row :=
  { baseRow with lp := 4, bus := 1, numerStacji := "400".toList, nazwaStacji := "DDD".toList }

/-- Leg row 1, matched (name "AAA"). -/
def c8r1 : Row :=
  { baseRow with lp := 1, nazwaStacji := "AAA".toList }

/-- Leg row 2, unmatched (name "BBB"). -/
def c8r2 : Row :=
  { baseRow with lp := 2, numerStacji := "200".toList, nazwaStacji := "BBB".toList }

/-- Leg row 3, matched (name "CCC"). -/
def c8r3 : Row :=
  { baseRow with lp := 3, numerStacji := "300".toList, nazwaStacji := "CCC".toList }

/-- A non-bus row whose departure platform holds the placeholder "NULL". -/
def c9row : Row :=
  { baseRow with peronWyjazd := "NULL".toList }

/-- Grouper demo stream, train 1 rows. -/
def c7r1 : Row :=
  { baseRow with nrPociagu := "1".toList, lp := 1 }

/-- Grouper demo stream, train 1 second row. -/
def c7r2 : Row :=
  { baseRow with nrPociagu := "1".toList, lp := 2, numerStacji := "200".toList }

/-- Grouper demo stream, train 2 row. -/
def c7r3 : Row :=
  { baseRow with nrPociagu := "2".toList, lp := 1, numerStacji := "300".toList }

theorem hmsLt_iff (a b : HMS) :
    hmsLt a b = true ↔
      (a.h < b.h ∨ (a.h = b.h ∧ (a.m < b.m ∨ (a.m = b.m ∧ a.s < b.s)))) := by
  simp [hmsLt]

theorem hmsLt_false_iff (a b : HMS) :
    hmsLt a b = false ↔
      ¬ (a.h < b.h ∨ (a.h = b.h ∧ (a.m < b.m ∨ (a.m = b.m ∧ a.s < b.s)))) := by
  rw [← hmsLt_iff]
  cases h : hmsLt a b <;> simp_all

theorem hmsLt_false_trans {a b c : HMS} (h1 : hmsLt b a = false) (h2 : hmsLt c b = false) :
    hmsLt c a = false := by
  rw [hmsLt_false_iff] at *
  omega

theorem bumpArr_not_lt (t prev : HMS) : hmsLt (bumpArr t prev) prev = false := by
  induction t, prev using bumpArr.induct with
  | case1 t prev h ih => rw [bumpArr, dif_pos h]; exact ih
  | case2 t prev h => rw [bumpArr, dif_neg h]; simpa using h

theorem bumpArr_add (t prev : HMS) : ∃ k, bumpArr t prev = ⟨t.h + 24 * k, t.m, t.s⟩ := by
  induction t, prev using bumpArr.induct with
  | case1 t prev h ih =>
      obtain ⟨k, hk⟩ := ih
      refine ⟨k + 1, ?_⟩
      rw [bumpArr, dif_pos h, hk]
      have he : t.h + 24 + 24 * k = t.h + 24 * (k + 1) := by ring
      simp [he]
  | case2 t prev h => exact ⟨0, by rw [bumpArr, dif_neg h]; simp⟩

/-- Claim C10: `normalize_platform` maps a platform whose base (after
stripping at most one trailing 'a') is a Roman numeral I..XII to the
Arabic numeral from `ROMAN_TO_ARABIC` with the trailing 'a' preserved,
and returns every other string unchanged. -/
theorem normalize_platform_spec (x : Str) :
    (∀ n, x.getLast? = some 'a' → List.lookup x.dropLast ROMAN_TO_ARABIC = some n →
      normalize_platform x = n ++ ['a'])
    ∧ (x.getLast? = some 'a' → List.lookup x.dropLast ROMAN_TO_ARABIC = none →
      normalize_platform x = x)
    ∧ (∀ n, x.getLast? ≠ some 'a' → List.lookup x ROMAN_TO_ARABIC = some n →
      normalize_platform x = n)
    ∧ (x.getLast? ≠ some 'a' → List.lookup x ROMAN_TO_ARABIC = none →
      normalize_platform x = x) := by
  refine ⟨?_, ?_, ?_, ?_⟩
  · intro n h1 h2
    simp only [normalize_platform, if_pos h1]
    simp [h2]
  · intro h1 h2
    simp only [normalize_platform, if_pos h1]
    simp only [h2, Option.getD_none]
    exact List.dropLast_append_getLast? 'a' (Option.mem_def.mpr h1)
  · intro n h1 h2
    simp only [normalize_platform, if_neg h1]
    simp [h2]
  · intro h1 h2
    simp only [normalize_platform, if_neg h1]
    simp [h2]

/-- Witness for C10 at the claim's own example: "IIa" becomes "2a". -/
theorem normalize_platform_spec_witness :
    normalize_platform ("IIa").toList = ("2").toList ++ ['a'] :=
  (normalize_platform_spec (("IIa").toList)).1 (("2").toList) (by decide) (by decide)

theorem train_legsGo_const (k : Nat) :
    ∀ (l leg : List Row), (∀ x ∈ l, x.bus = k) →
      train_legsGo (some k) leg l = if 1 < (leg ++ l).length then [leg ++ l] else [] := by
  intro l
  induction l with
  | nil => intro leg _; simp [train_legsGo]
  | cons r rest ih =>
      intro leg hall
      have hr : r.bus = k := hall r (by simp)
      have hrest : ∀ x ∈ rest, x.bus = k := fun x hx => hall x (by simp [hx])
      rw [train_legsGo, if_neg (by simp [hr])]
      rw [ih (leg ++ [r]) hrest]
      simp

/-- Claim C4 (amended): on a single-mode train with at least 2 commercial
rows, `train_legs` returns exactly one leg holding the rows in order, but
its first element is the departure-only copy of row 1 (arrival fields
backfilled from the departure side), not row 1 itself; rows 2..n are
unchanged. -/
theorem train_legs_single_mode (r : Row) (rest : List Row) (b : Nat)
    (hall : ∀ x ∈ r :: rest, x.bus = b) (hne : rest ≠ []) :
    train_legs (r :: rest) = [row_dep_only r none :: rest] := by
  have hr : r.bus = b := hall r (by simp)
  have hrest : ∀ x ∈ rest, x.bus = b := fun x hx => hall x (by simp [hx])
  have hlen : 1 < ([row_dep_only r none] ++ rest).length := by
    cases rest with
    | nil => exact absurd rfl hne
    | cons y ys => simp
  rw [train_legs, train_legsGo, if_pos (by simp)]
  rw [hr, train_legsGo_const b rest [row_dep_only r none] hrest, if_pos hlen]
  simp

/-- Claim C4 (counterexample): on a two-row single-mode train whose first
row has distinct arrival and departure data, `train_legs` emits one leg,
but that leg is not `[row1, row2]` — the first row was rewritten. -/
theorem train_legs_single_mode_counterexample :
    (train_legs [baseRow, c4r2]).length = 1 ∧ train_legs [baseRow, c4r2] ≠ [[baseRow, c4r2]] := by
  constructor
  · decide
  · decide

/-- Witness for the amended C4 at a concrete two-row train. -/
theorem train_legs_single_mode_witness :
    train_legs [baseRow, c4r2] = [row_dep_only baseRow none :: [c4r2]] :=
  train_legs_single_mode baseRow [c4r2] 0 (by decide) (by decide)

theorem emitLegRows_times (stops : List Str) (tripId : Str) :
    ∀ (rows : List Row) (seq : Nat) (pd : HMS) (st : EmitState),
      ((emitLegRows stops tripId seq pd st rows).2.2.all
          (fun x => !(hmsLt x.dep x.arr))) = true
      ∧ List.Chain' (fun a b => hmsLt b.arr a.dep = false)
          (emitLegRows stops tripId seq pd st rows).2.2
      ∧ (∀ x, (emitLegRows stops tripId seq pd st rows).2.2.head? = some x →
          hmsLt x.arr pd = false) := by
  intro rows
  induction rows with
  | nil => intro seq pd st; simp [emitLegRows]
  | cons r rest ih =>
      intro seq pd st
      by_cases hm : fixStop (upperStr r.nazwaStacji) ∈ stops
      · simp only [emitLegRows, if_pos hm]
        obtain ⟨iha, ihc, ihh⟩ := ih (seq + 1)
          (bumpArr (hmsOf r.odjazd) (bumpArr (hmsOf r.przyjazd) pd))
          { st with stopsUsed := setAdd st.stopsUsed (r.numerStacji, fixStop (upperStr r.nazwaStacji)) }
        refine ⟨?_, ?_, ?_⟩
        · simp only [List.all_cons, Bool.and_eq_true, Bool.not_eq_true']
          exact ⟨bumpArr_not_lt _ _, iha⟩
        · rw [List.chain'_cons']
          exact ⟨fun y hy => ihh y (by simpa using hy), ihc⟩
        · intro x hx
          simp only [List.head?_cons, Option.some.injEq] at hx
          subst hx
          exact bumpArr_not_lt _ _
      · simp only [emitLegRows, if_neg hm]
        exact ih (seq + 1) pd _

/-- Claim C2 (amended): in pkpic.py the `while`-loop time fixing of
`save_trips` guarantees `arrival[i] <= departure[i] <= arrival[i+1]` (in
the lexicographic [h, m, s] order, on the possibly >24h timeline) for
every adjacent pair of emitted stop-times of a leg or single-mode train,
for any initial accumulator (in particular `previous_dep = [0, 0, 0]`);
each fix adds a multiple of 24 hours, repeatedly, until the value is no
longer smaller than its bound.  In load_csv.py's `parse_train`, however,
24 hours is added at most once, and the invariant can fail (see the
counterexample). -/
theorem time_normalization_monotone :
    (∀ stops tripId seq pd st rows,
        ((emitLegRows stops tripId seq pd st rows).2.2.all
            (fun x => !(hmsLt x.dep x.arr))) = true
        ∧ List.Chain' (fun a b => hmsLt b.arr a.dep = false)
            (emitLegRows stops tripId seq pd st rows).2.2)
    ∧ (∀ t prev, ∃ k,
        bumpArr t prev = ⟨t.h + 24 * k, t.m, t.s⟩ ∧ hmsLt (bumpArr t prev) prev = false) := by
  constructor
  · intro stops tripId seq pd st rows
    exact ⟨(emitLegRows_times stops tripId rows seq pd st).1,
      (emitLegRows_times stops tripId rows seq pd st).2.1⟩
  · intro t prev
    obtain ⟨k, hk⟩ := bumpArr_add t prev
    exact ⟨k, hk, bumpArr_not_lt t prev⟩

/-- Claim C2 (counterexample): `parse_train` of load_csv.py adds 24 hours
only once, so on this overnight train the third stop's arrival
(122400 s = 34:00:00) ends up before the second stop's departure
(172200 s = 47:50:00): `arrival[i+1] >= departure[i]` fails. -/
theorem parse_train_time_counterexample :
    ((parse_train [c2r1, c2r2, c2r3]).2.map (fun x => (x.arr, x.dep)))
      = [(82800, 84600), (87000, 172200), (122400, 122700)]
    ∧ 122400 < 172200 := by
  constructor
  · decide
  · decide

theorem emitLegRows_stopIds (stops : List Str) (tripId : Str) :
    ∀ (rows : List Row) (seq : Nat) (pd : HMS) (st : EmitState),
      (emitLegRows stops tripId seq pd st rows).2.2.map (fun x => x.stopId)
        = (rows.filter (fun r => decide (fixStop (upperStr r.nazwaStacji) ∈ stops))).map
            (fun r => r.numerStacji) := by
  intro rows
  induction rows with
  | nil => intro seq pd st; simp [emitLegRows]
  | cons r rest ih =>
      intro seq pd st
      by_cases hm : fixStop (upperStr r.nazwaStacji) ∈ stops
      · simp only [emitLegRows, if_pos hm]
        rw [List.filter_cons_of_pos (by simpa using hm)]
        simp [ih]
      · simp only [emitLegRows, if_neg hm]
        rw [List.filter_cons_of_neg (by simpa using hm)]
        exact ih (seq + 1) pd _

theorem setAdd_nodup {α : Type} [DecidableEq α] {s : List α} (x : α) (h : s.Nodup) :
    (setAdd s x).Nodup := by
  unfold setAdd
  by_cases hx : x ∈ s
  · rw [if_pos hx]; exact h
  · rw [if_neg hx]
    exact (List.perm_append_singleton x s).nodup_iff.mpr (List.nodup_cons.mpr ⟨hx, h⟩)

theorem emitLegRows_invalid_nodup (stops : List Str) (tripId : Str) :
    ∀ (rows : List Row) (seq : Nat) (pd : HMS) (st : EmitState),
      st.stopsInvalid.Nodup →
      (emitLegRows stops tripId seq pd st rows).1.stopsInvalid.Nodup := by
  intro rows
  induction rows with
  | nil => intro seq pd st h; simpa [emitLegRows] using h
  | cons r rest ih =>
      intro seq pd st h
      by_cases hm : fixStop (upperStr r.nazwaStacji) ∈ stops
      · simp only [emitLegRows, if_pos hm]
        exact ih (seq + 1) _ _ h
      · simp only [emitLegRows, if_neg hm]
        exact ih (seq + 1) pd _ (setAdd_nodup _ h)

theorem emitLegs_invalid_nodup (stops : List Str)
    (trainId serviceId category headsign gtfsName : Str) :
    ∀ (legs : List (List Row)) (suffix : Nat) (pd : HMS) (st : EmitState),
      st.stopsInvalid.Nodup →
      (emitLegs stops trainId serviceId category headsign gtfsName suffix pd st legs).1.stopsInvalid.Nodup := by
  intro legs
  induction legs with
  | nil => intro suffix pd st h; simpa [emitLegs] using h
  | cons legRows rest ih =>
      intro suffix pd st h
      simp only [emitLegs]
      apply ih
      apply emitLegRows_invalid_nodup
      split <;> exact h

theorem processTrain_invalid_nodup (stops : List Str) (st : EmitState) (trainRows : List Row)
    (h : st.stopsInvalid.Nodup) :
    (processTrain stops st trainRows).1.stopsInvalid.Nodup := by
  simp only [processTrain]
  split
  · exact h
  · split
    · exact emitLegRows_invalid_nodup _ _ _ _ _ _ h
    · exact emitLegs_invalid_nodup _ _ _ _ _ _ _ _ _ _ h

theorem saveTrips_foldl_invalid_nodup (stops : List Str) :
    ∀ (gs : List (List Row)) (acc : EmitState × List TripRec × List StopTimeRec),
      acc.1.stopsInvalid.Nodup →
      (gs.foldl (saveTripsStep stops) acc).1.stopsInvalid.Nodup := by
  intro gs
  induction gs with
  | nil => intro acc h; exact h
  | cons g rest ih =>
      intro acc h
      exact ih _ (processTrain_invalid_nodup stops acc.1 g h)

/-- Claim C5 (amended): a stop whose (fixed, uppercased) name has no
canonical match produces no stop-time row while every matched stop of the
same leg still does — the emitted stop ids are exactly the ids of the
matched rows, in order; and the missing-stops report (the
`stops_invalid` set) holds each recorded (station code, fixed name) PAIR
exactly once across the whole run — a station code referenced under two
different display names appears once per name, not once overall. -/
theorem missing_stop_handling :
    (∀ stops tripId seq pd st rows,
        (emitLegRows stops tripId seq pd st rows).2.2.map (fun x => x.stopId)
          = (rows.filter (fun r => decide (fixStop (upperStr r.nazwaStacji) ∈ stops))).map
              (fun r => r.numerStacji))
    ∧ (∀ stops csv, ((saveTrips stops csv).1.stopsInvalid).Nodup) := by
  constructor
  · intro stops tripId seq pd st rows
    exact emitLegRows_stopIds stops tripId rows seq pd st
  · intro stops csv
    exact saveTrips_foldl_invalid_nodup stops (train_loader csv) (emptyState, [], []) (by simp [emptyState])

/-- Claim C5 (counterexample): two trains reference the unmatched station
code "1" under different display names ("AAA" and "BBB"); the
missing-stops report then lists the code "1" twice, not exactly once. -/
theorem missing_stop_handling_counterexample :
    ((saveTrips [] [c5a1, c5a2, c5b1, c5b2]).1.stopsInvalid.countP
        (fun p => p.1 == ("1").toList)) = 2 := by
  decide

theorem emitLegRows_seqs (stops : List Str) (tripId : Str) :
    ∀ (rows : List Row) (seq : Nat) (pd : HMS) (st : EmitState),
      (emitLegRows stops tripId seq pd st rows).2.2.map (fun x => x.seq)
        = (List.enumFrom seq rows).filterMap
            (fun p => if fixStop (upperStr p.2.nazwaStacji) ∈ stops then some p.1 else none) := by
  intro rows
  induction rows with
  | nil => intro seq pd st; simp [emitLegRows]
  | cons r rest ih =>
      intro seq pd st
      by_cases hm : fixStop (upperStr r.nazwaStacji) ∈ stops
      · simp only [emitLegRows, if_pos hm, List.enumFrom_cons, List.filterMap_cons, List.map_cons]
        simp [ih]
      · simp only [emitLegRows, if_neg hm, List.enumFrom_cons, List.filterMap_cons]
        exact ih (seq + 1) pd _

theorem parse_train_go_seq (tripId : Str) (off : Int) :
    ∀ (rows : List Row) (idx : Nat) (pd : Nat),
      (parse_train_go tripId off idx pd rows).map (fun x => x.seq)
        = (List.range rows.length).map (fun i => i + idx) := by
  intro rows
  induction rows with
  | nil => intro idx pd; simp [parse_train_go]
  | cons r rest ih =>
      intro idx pd
      simp only [parse_train_go, List.map_cons, List.length_cons, List.range_succ_eq_map,
        List.map_map]
      rw [ih]
      refine congrArg₂ List.cons (by omega) ?_
      exact List.map_congr_left (fun a _ => by simp [Function.comp]; omega)

theorem parse_train_go_dist (tripId : Str) (off : Int) :
    ∀ (rows : List Row) (idx : Nat) (pd : Nat),
      (parse_train_go tripId off idx pd rows).map (fun x => x.fareDist)
        = rows.map (fun r => r.droga - off) := by
  intro rows
  induction rows with
  | nil => intro idx pd; simp [parse_train_go]
  | cons r rest ih =>
      intro idx pd
      simp only [parse_train_go, List.map_cons]
      rw [ih]

/-- Claim C8 (amended): each emitted leg writes exactly one stop-time per
surviving (reconciled) stop.  In pkpic.py the per-leg sequence index of a
surviving stop is its `enumerate` position within the FULL leg — the
indices of the surviving stops keep gaps where stops were dropped, they
are not re-numbered consecutively.  In load_csv.py's `parse_train` no
stop is ever dropped, the indices are 0,1,...,n-1, and the fare distance
is relative to the train's first row. -/
theorem stop_time_seq_dist :
    (∀ stops tripId seq pd st rows,
        (emitLegRows stops tripId seq pd st rows).2.2.map (fun x => x.seq)
          = (List.enumFrom seq rows).filterMap
              (fun p => if fixStop (upperStr p.2.nazwaStacji) ∈ stops then some p.1 else none))
    ∧ (∀ rows, (parse_train rows).2.map (fun x => x.seq) = List.range rows.length)
    ∧ (∀ rows, (parse_train rows).2.map (fun x => x.fareDist)
        = rows.map (fun r => r.droga - (rows.headD default).droga)) := by
  refine ⟨?_, ?_, ?_⟩
  · intro stops tripId seq pd st rows
    exact emitLegRows_seqs stops tripId rows seq pd st
  · intro rows
    simp only [parse_train]
    rw [parse_train_go_seq]
    simp
  · intro rows
    simp only [parse_train]
    rw [parse_train_go_dist]

/-- Claim C8 (counterexample): a leg A-B-C whose middle stop B has no
canonical match emits stop-times with sequence indices [0, 2] — the
index of C is not re-numbered to 1, so the per-leg indices of the
surviving stops are not consecutive. -/
theorem stop_time_seq_counterexample :
    ((emitLegRows [("AAA").toList, ("CCC").toList] ("T").toList 0 ⟨0, 0, 0⟩ emptyState
        [c8r1, c8r2, c8r3]).2.2.map (fun x => x.seq)) = [0, 2] := by
  decide

theorem emitLegRows_platforms (stops : List Str) (tripId : Str) :
    ∀ (rows : List Row) (seq : Nat) (pd : HMS) (st : EmitState),
      (emitLegRows stops tripId seq pd st rows).2.2.map (fun x => x.platform)
        = (rows.filter (fun r => decide (fixStop (upperStr r.nazwaStacji) ∈ stops))).map
            (fun r => platform_of r.peronWjazd r.peronWyjazd) := by
  intro rows
  induction rows with
  | nil => intro seq pd st; simp [emitLegRows]
  | cons r rest ih =>
      intro seq pd st
      by_cases hm : fixStop (upperStr r.nazwaStacji) ∈ stops
      · simp only [emitLegRows, if_pos hm]
        rw [List.filter_cons_of_pos (by simpa using hm)]
        simp [ih]
      · simp only [emitLegRows, if_neg hm]
        rw [List.filter_cons_of_neg (by simpa using hm)]
        exact ih (seq + 1) pd _

/-- Claim C9 (amended): in pkpic.py every emitted stop-time's platform is
`platform_of` of the row's arrival/departure platforms, and `platform_of`
returns the empty string whenever each of the two source values is
unspecified (empty) or a bus-only placeholder ("BUS"/"NULL",
case-insensitive).  In load_csv.py, by contrast, a bus row or a "BUS"
departure platform yields the literal platform "BUS", and "NULL" passes
through unchanged (see the counterexample). -/
theorem platform_placeholder_empty :
    (∀ stops tripId seq pd st rows,
        (emitLegRows stops tripId seq pd st rows).2.2.map (fun x => x.platform)
          = (rows.filter (fun r => decide (fixStop (upperStr r.nazwaStacji) ∈ stops))).map
              (fun r => platform_of r.peronWjazd r.peronWyjazd))
    ∧ (∀ pa pd, (pa = [] ∨ upperStr pa ∈ [("BUS").toList, ("NULL").toList]) →
        (pd = [] ∨ upperStr pd ∈ [("BUS").toList, ("NULL").toList]) →
        platform_of pa pd = []) := by
  constructor
  · intro stops tripId seq pd st rows
    exact emitLegRows_platforms stops tripId rows seq pd st
  · intro pa pd hpa hpd
    have ha : (if upperStr pa ∈ [("BUS").toList, ("NULL").toList] then ([] : Str) else pa) = [] := by
      rcases hpa with h | h
      · subst h; split <;> rfl
      · rw [if_pos h]
    have hd : (if upperStr pd ∈ [("BUS").toList, ("NULL").toList] then ([] : Str) else pd) = [] := by
      rcases hpd with h | h
      · subst h; split <;> rfl
      · rw [if_pos h]
    simp only [platform_of]
    rw [ha, hd]
    rfl

/-- Witness for the amended C9: a "Bus" departure platform together with
a "NULL" arrival platform yields an empty platform in pkpic.py. -/
theorem platform_placeholder_empty_witness :
    platform_of (("NULL").toList) (("Bus").toList) = [] :=
  platform_placeholder_empty.2 (("NULL").toList) (("Bus").toList) (by decide) (by decide)

/-- Claim C9 (counterexample): in load_csv.py's `parse_train` the
bus-only placeholder "NULL" is NOT mapped to the empty string — the
emitted platform is the literal "NULL". -/
theorem lcsv_platform_counterexample :
    ((parse_train [c9row]).2.map (fun x => x.platform)) = [("NULL").toList]
    ∧ ("NULL").toList ≠ ([] : Str) := by
  constructor
  · decide
  · decide

theorem emitLegRows_transfers (stops : List Str) (tripId : Str) :
    ∀ (rows : List Row) (seq : Nat) (pd : HMS) (st : EmitState),
      (emitLegRows stops tripId seq pd st rows).1.transfers = st.transfers := by
  intro rows
  induction rows with
  | nil => intro seq pd st; simp [emitLegRows]
  | cons r rest ih =>
      intro seq pd st
      by_cases hm : fixStop (upperStr r.nazwaStacji) ∈ stops
      · simp only [emitLegRows, if_pos hm]
        rw [ih]
      · simp only [emitLegRows, if_neg hm]
        rw [ih]

theorem emitLegs_transfers (stops : List Str)
    (trainId serviceId category headsign gtfsName : Str) :
    ∀ (legs : List (List Row)) (suffix : Nat) (pd : HMS) (st : EmitState),
      (emitLegs stops trainId serviceId category headsign gtfsName suffix pd st legs).1.transfers
        = st.transfers ++ transfersSpec trainId suffix legs := by
  intro legs
  induction legs with
  | nil => intro suffix pd st; simp [emitLegs, transfersSpec]
  | cons legRows rest ih =>
      intro suffix pd st
      simp only [emitLegs, transfersSpec]
      rw [ih, emitLegRows_transfers]
      by_cases hs : 0 < suffix
      · rw [if_pos hs, if_pos hs]
        simp
      · rw [if_neg hs, if_neg hs]
        simp

/-- Claim C6 (amended): for every multi-leg train the emitter appends one
TransferRecord per consecutive leg pair — at leg N+1's first station
code, linking the suffixed trip ids — UNCONDITIONALLY: the transfers do
not depend on the canonical stop set at all (`transfersSpec` takes no
stop-set argument), so a transfer is emitted even when the coupling stop
is not present in the canonical stop set. -/
theorem transfers_unconditional :
    ∀ stops trainId serviceId category headsign gtfsName suffix pd st legs,
      (emitLegs stops trainId serviceId category headsign gtfsName suffix pd st legs).1.transfers
        = st.transfers ++ transfersSpec trainId suffix legs := by
  intro stops trainId serviceId category headsign gtfsName suffix pd st legs
  exact emitLegs_transfers stops trainId serviceId category headsign gtfsName legs suffix pd st

/-- Claim C6 (counterexample): a two-leg train whose coupling stop (code
"300", name "CCC") is not in the canonical stop set (which is empty here)
still gets exactly one TransferRecord, refuting the "only if the coupling
stop is present in the canonical stop set" direction. -/
theorem transfers_unconditional_counterexample :
    (saveTrips [] [c6r1, c6r2, c6r3, c6r4]).1.transfers
      = [(("300").toList, ("2024-01-02_12345_0").toList, ("2024-01-02_12345_1").toList)]
    ∧ fixStop (upperStr c6r3.nazwaStacji) ∉ ([] : List Str) := by
  constructor
  · decide
  · decide

/-- Claim C3 (amended): pkpic.py drops a train entirely (no trip, no
stop-times, accumulators untouched) whenever at most 1 row survives the
commercial-station filter; the load_csv.py pipeline produces nothing for
a train with zero commercial rows (it forms no group at all), but a train
with exactly one commercial row still yields one trip and one stop-time
record (see the counterexample). -/
theorem degenerate_train_dropped :
    (∀ stops st rows,
        (rows.filter (fun r => decide (r.stacjaHandlowa = ("1").toList))).length ≤ 1 →
        processTrain stops st rows = (st, [], []))
    ∧ (∀ csv, csv.filter (fun r => decide (r.stacjaHandlowa = ("1").toList)) = [] →
        loadCSV_execute csv = []) := by
  constructor
  · intro stops st rows h
    have hlen : (List.insertionSort (fun a b => a.lp ≤ b.lp)
        (rows.filter (fun r => decide (r.stacjaHandlowa = ("1").toList)))).length ≤ 1 := by
      rw [List.length_insertionSort]
      exact h
    simp only [processTrain]
    rw [if_pos hlen]
  · intro csv h
    simp only [loadCSV_execute, lcsv_train_rows]
    rw [h]
    simp [train_loader, train_loaderGo]

/-- Claim C3 (counterexample): in the load_csv.py pipeline a train with
exactly one commercial row produces one trip with one stop-time record,
not zero. -/
theorem degenerate_train_dropped_counterexample :
    (loadCSV_execute [c3row]).length = 1
    ∧ ((loadCSV_execute [c3row]).map (fun p => p.2.length)) = [1] := by
  constructor
  · decide
  · decide

/-- Witness for the amended C3 at a concrete train: one technical and one
commercial stop leave a single valid row, so pkpic.py emits nothing. -/
theorem degenerate_train_dropped_witness :
    processTrain [] emptyState [c3ncRow, c3row] = (emptyState, [], []) :=
  degenerate_train_dropped.1 [] emptyState [c3ncRow, c3row] (by decide)

theorem one_lt_length_of_two_mem {α : Type} {l : List α} {a b : α}
    (ha : a ∈ l) (hb : b ∈ l) (hne : a ≠ b) : 1 < l.length := by
  cases l with
  | nil => simp at ha
  | cons x xs =>
      cases xs with
      | nil =>
          simp at ha hb
          exact absurd (ha.trans hb.symm) hne
      | cons y ys => simp

theorem train_legs_flip3 (r1 r2 r3 : Row) (h12 : r2.bus ≠ r1.bus) (h23 : r3.bus ≠ r2.bus) :
    train_legs [r1, r2, r3] = [] := by
  simp [train_legs, train_legsGo, h12, h23]

/-- Claim C1 (amended): a train of exactly 3 commercial rows whose row 2
flips the bus flag and whose last row 3 flips it back produces NO legs at
all — `train_legs` only emits a leg once it holds at least 2 rows, and
each flip here arrives while the accumulated leg has a single row — so
the emitter writes no trips, no stop-times and no TransferRecord for the
train, leaving the state untouched.  (There is no final-row exception in
the code: the third flip is not suppressed, it merely discards the
one-row leg.) -/
theorem leg_splitter_final_flip (r1 r2 r3 : Row) (stops : List Str) (st : EmitState)
    (hc1 : r1.stacjaHandlowa = ("1").toList) (hc2 : r2.stacjaHandlowa = ("1").toList)
    (hc3 : r3.stacjaHandlowa = ("1").toList)
    (hlp1 : r1.lp ≤ r2.lp) (hlp2 : r2.lp ≤ r3.lp)
    (hb1 : r2.bus ≠ r1.bus) (hb2 : r3.bus ≠ r2.bus) (hb3 : r3.bus = r1.bus) :
    train_legs [r1, r2, r3] = [] ∧ processTrain stops st [r1, r2, r3] = (st, [], []) := by
  refine ⟨train_legs_flip3 r1 r2 r3 hb1 hb2, ?_⟩
  have hfilter : ([r1, r2, r3].filter (fun r => decide (r.stacjaHandlowa = ("1").toList)))
      = [r1, r2, r3] := by
    simp [List.filter, hc1, hc2, hc3]
  have hsorted : List.Sorted (fun a b : Row => a.lp ≤ b.lp) [r1, r2, r3] := by
    simp only [List.sorted_cons, List.mem_cons, List.mem_singleton]
    refine ⟨fun b hb => ?_, fun b hb => ?_, by simp [List.Sorted]⟩
    · rcases hb with rfl | rfl | h
      · exact hlp1
      · exact le_trans hlp1 hlp2
      · simp at h
    · rcases hb with rfl | h
      · exact hlp2
      · simp at h
  have hsort : List.insertionSort (fun a b : Row => a.lp ≤ b.lp) [r1, r2, r3] = [r1, r2, r3] :=
    List.Sorted.insertionSort_eq hsorted
  have hml : 1 < (([r1, r2, r3].map (fun r => r.bus)).dedup).length := by
    refine one_lt_length_of_two_mem (a := r2.bus) (b := r1.bus) ?_ ?_ hb1
    · rw [List.mem_dedup]; simp
    · rw [List.mem_dedup]; simp
  simp only [processTrain, hfilter, hsort]
  rw [if_neg (by simp)]
  rw [if_neg (fun hc => hc hml)]
  rw [train_legs_flip3 r1 r2 r3 hb1 hb2]
  simp [emitLegs]

/-- Claim C1 (counterexample): on a concrete 3-row train with bus flags
0, 1, 0, `train_legs` emits no legs (not the claimed two), and the
emitter produces no trips, no stop-times and no TransferRecord (not the
claimed one transfer). -/
theorem leg_splitter_final_flip_counterexample :
    train_legs [c1r1, c1r2, c1r3] = []
    ∧ processTrain [("AAA").toList, ("BBB").toList, ("CCC").toList] emptyState [c1r1, c1r2, c1r3]
        = (emptyState, [], []) := by
  constructor
  · decide
  · decide

/-- Witness for the amended C1 at the same concrete flip-flip train. -/
theorem leg_splitter_final_flip_witness :
    train_legs [c1r1, c1r2, c1r3] = []
    ∧ processTrain [] emptyState [c1r1, c1r2, c1r3] = (emptyState, [], []) :=
  leg_splitter_final_flip c1r1 c1r2 c1r3 [] emptyState (by decide) (by decide) (by decide)
    (by decide) (by decide) (by decide) (by decide) (by decide)

theorem strLtB_irrefl : ∀ a : Str, strLtB a a = false := by
  intro a
  induction a with
  | nil => rfl
  | cons c cs ih => simp [strLtB, ih]

theorem strLtB_asymm : ∀ (a b : Str), strLtB a b = true → strLtB b a = true → False := by
  intro a
  induction a with
  | nil =>
      intro b h1 h2
      cases b with
      | nil => simp [strLtB] at h1
      | cons d ds => simp [strLtB] at h2
  | cons c cs ih =>
      intro b h1 h2
      cases b with
      | nil => simp [strLtB] at h1
      | cons d ds =>
          simp only [strLtB, Bool.or_eq_true, Bool.and_eq_true, decide_eq_true_eq] at h1 h2
          rcases h1 with h1 | ⟨he1, h1⟩
          · rcases h2 with h2 | ⟨he2, h2⟩
            · exact lt_asymm h1 h2
            · subst he2; exact lt_irrefl _ h1
          · rcases h2 with h2 | ⟨he2, h2⟩
            · subst he1; exact lt_irrefl _ h2
            · exact ih ds h1 h2

theorem keyLe_antisymm {a b : Str × Str} (h1 : keyLe a b) (h2 : keyLe b a) : a = b := by
  obtain ⟨a1, a2⟩ := a
  obtain ⟨b1, b2⟩ := b
  simp only [keyLe] at h1 h2
  rcases h1 with h1 | ⟨he1, h1⟩
  · rcases h2 with h2 | ⟨he2, h2⟩
    · exact (strLtB_asymm a1 b1 h1 h2).elim
    · subst he2; simp [strLtB_irrefl] at h1
  · rcases h2 with h2 | ⟨he2, h2⟩
    · subst he1; simp [strLtB_irrefl] at h2
    · subst he1
      rcases h1 with h1 | h1
      · rcases h2 with h2 | h2
        · exact (strLtB_asymm a2 b2 h1 h2).elim
        · subst h2; simp [strLtB_irrefl] at h1
      · subst h1; rfl

theorem rowLe_keyLe {a b : Row} (h : rowLe a b) : keyLe (rowKey a) (rowKey b) := by
  simp only [rowLe] at h
  simp only [keyLe, rowKey]
  rcases h with h | ⟨he, h⟩
  · exact Or.inl h
  · refine Or.inr ⟨he, ?_⟩
    rcases h with h | ⟨he2, h2⟩
    · exact Or.inl h
    · exact Or.inr he2

theorem train_loaderGo_flatten :
    ∀ (l : List Row) (pk : Option (Str × Str)) (acc : List Row),
      (train_loaderGo pk acc l).flatten = acc ++ l := by
  intro l
  induction l with
  | nil =>
      intro pk acc
      by_cases h : acc = [] <;> simp [train_loaderGo, h]
  | cons r rest ih =>
      intro pk acc
      by_cases h : pk = some (rowKey r)
      · rw [train_loaderGo, if_neg (by simp [h])]
        rw [ih]
        simp
      · rw [train_loaderGo, if_pos h]
        by_cases ha : acc = []
        · subst ha; simp [ih]
        · rw [if_neg ha]
          simp [ih]

theorem groupKey_eq {g : List Row} {k : Str × Str} (hne : g ≠ [])
    (hall : ∀ r ∈ g, rowKey r = k) : groupKey g = k := by
  cases g with
  | nil => exact absurd rfl hne
  | cons a as => simp [groupKey, hall a (List.mem_cons_self a as)]

theorem train_loaderGo_groups :
    ∀ (l : List Row) (k : Str × Str) (acc : List Row),
      (∀ r ∈ acc, rowKey r = k) →
      ∀ g ∈ train_loaderGo (some k) acc l, g ≠ [] ∧ ∀ r ∈ g, rowKey r = groupKey g := by
  intro l
  induction l with
  | nil =>
      intro k acc hacc g hg
      by_cases h : acc = []
      · simp [train_loaderGo, h] at hg
      · rw [train_loaderGo, if_neg h] at hg
        simp only [List.mem_singleton] at hg
        subst hg
        refine ⟨h, ?_⟩
        intro x hx
        rw [groupKey_eq h hacc]
        exact hacc x hx
  | cons r rest ih =>
      intro k acc hacc g hg
      by_cases h : rowKey r = k
      · rw [train_loaderGo, if_neg (by simp [h])] at hg
        refine ih k (acc ++ [r]) ?_ g hg
        intro x hx
        rcases List.mem_append.mp hx with hx | hx
        · exact hacc x hx
        · simp only [List.mem_singleton] at hx; subst hx; exact h
      · rw [train_loaderGo, if_pos (by simpa using Ne.symm h)] at hg
        rcases List.mem_append.mp hg with hg | hg
        · by_cases ha : acc = []
          · rw [if_pos ha] at hg; simp at hg
          · rw [if_neg ha] at hg
            simp only [List.mem_singleton] at hg
            subst hg
            refine ⟨ha, ?_⟩
            intro x hx
            rw [groupKey_eq ha hacc]
            exact hacc x hx
        · exact ih (rowKey r) [r] (by simp) g hg

theorem train_loaderGo_keys_sub :
    ∀ (l : List Row) (k : Str × Str) (acc : List Row),
      (∀ r ∈ acc, rowKey r = k) →
      ∀ x ∈ (train_loaderGo (some k) acc l).map groupKey, x ∈ k :: l.map rowKey := by
  intro l
  induction l with
  | nil =>
      intro k acc hacc x hx
      by_cases h : acc = []
      · simp [train_loaderGo, h] at hx
      · rw [train_loaderGo, if_neg h] at hx
        simp only [List.map_cons, List.map_nil, List.mem_singleton] at hx
        subst hx
        rw [groupKey_eq h hacc]
        simp
  | cons r rest ih =>
      intro k acc hacc x hx
      by_cases h : rowKey r = k
      · rw [train_loaderGo, if_neg (by simp [h])] at hx
        have hsub := ih k (acc ++ [r])
          (by
            intro y hy
            rcases List.mem_append.mp hy with hy | hy
            · exact hacc y hy
            · simp only [List.mem_singleton] at hy; subst hy; exact h)
          x hx
        simp only [List.mem_cons, List.map_cons] at hsub ⊢
        rcases hsub with h1 | h1
        · exact Or.inl h1
        · exact Or.inr (Or.inr h1)
      · rw [train_loaderGo, if_pos (by simpa using Ne.symm h)] at hx
        rw [List.map_append] at hx
        rcases List.mem_append.mp hx with hx | hx
        · by_cases ha : acc = []
          · rw [if_pos ha] at hx; simp at hx
          · rw [if_neg ha] at hx
            simp only [List.map_cons, List.map_nil, List.mem_singleton] at hx
            subst hx
            rw [groupKey_eq ha hacc]
            simp
        · have hsub := ih (rowKey r) [r] (by simp) x hx
          simp only [List.mem_cons, List.map_cons] at hsub ⊢
          rcases hsub with h1 | h1
          · exact Or.inr (Or.inl h1)
          · exact Or.inr (Or.inr h1)

theorem train_loaderGo_keys_nodup :
    ∀ (l : List Row) (k : Str × Str) (acc : List Row),
      (∀ r ∈ acc, rowKey r = k) →
      List.Pairwise keyLe (k :: l.map rowKey) →
      ((train_loaderGo (some k) acc l).map groupKey).Nodup := by
  intro l
  induction l with
  | nil =>
      intro k acc hacc hp
      by_cases h : acc = [] <;> simp [train_loaderGo, h]
  | cons r rest ih =>
      intro k acc hacc hp
      have hp2 : List.Pairwise keyLe (k :: rowKey r :: rest.map rowKey) := by simpa using hp
      obtain ⟨hpk, hptail⟩ := List.pairwise_cons.mp hp2
      have hpr : List.Pairwise keyLe (rowKey r :: rest.map rowKey) := hptail
      by_cases h : rowKey r = k
      · rw [train_loaderGo, if_neg (by simp [h])]
        refine ih k (acc ++ [r]) ?_ ?_
        · intro x hx
          rcases List.mem_append.mp hx with hx | hx
          · exact hacc x hx
          · simp only [List.mem_singleton] at hx; subst hx; exact h
        · obtain ⟨hr1, hr2⟩ := List.pairwise_cons.mp hptail
          exact List.pairwise_cons.mpr ⟨fun x hx => hpk x (by simp [hx]), hr2⟩
      · rw [train_loaderGo, if_pos (by simpa using Ne.symm h)]
        rw [List.map_append]
        have hrec : ((train_loaderGo (some (rowKey r)) [r] rest).map groupKey).Nodup :=
          ih (rowKey r) [r] (by simp) hpr
        by_cases ha : acc = []
        · rw [if_pos ha]; simpa using hrec
        · rw [if_neg ha]
          have hgk : groupKey acc = k := groupKey_eq ha hacc
          simp only [List.map_cons, List.map_nil, List.singleton_append, hgk]
          rw [List.nodup_cons]
          refine ⟨?_, hrec⟩
          intro hk
          have hsub := train_loaderGo_keys_sub rest (rowKey r) [r] (by simp) k hk
          rcases List.mem_cons.mp hsub with h1 | h1
          · exact h h1.symm
          · have h1' : keyLe (rowKey r) k := (List.pairwise_cons.mp hpr).1 k h1
            have h2' : keyLe k (rowKey r) := hpk (rowKey r) (by simp)
            exact h (keyLe_antisymm h1' h2')

/-- Claim C7: on an input stream sorted by (service date, train number,
sequence position), `train_loader` yields groups that (a) concatenate
back to the input — every row is in exactly one group, order preserved,
with the final non-empty group flushed at end of stream; (b) are all
non-empty; (c) each hold rows of a single (date, train number) key; and
(d) have pairwise-distinct keys — exactly one group per distinct key.
The grouping itself compares key tuples for exact equality. -/
theorem row_grouper_spec (rows : List Row) (hs : List.Pairwise rowLe rows) :
    (train_loader rows).flatten = rows
    ∧ ((train_loader rows).all (fun g => !g.isEmpty)) = true
    ∧ ((train_loader rows).all (fun g => g.all (fun r => rowKey r == groupKey g))) = true
    ∧ ((train_loader rows).map groupKey).Nodup := by
  cases rows with
  | nil => simp [train_loader, train_loaderGo]
  | cons r rest =>
      have hflat := train_loaderGo_flatten (r :: rest) none []
      have hkp : List.Pairwise keyLe (rowKey r :: rest.map rowKey) := by
        have hmap : List.Pairwise keyLe ((r :: rest).map rowKey) :=
          List.Pairwise.map rowKey (fun a b hab => rowLe_keyLe hab) hs
        simpa using hmap
      have hgo : train_loader (r :: rest) = train_loaderGo (some (rowKey r)) [r] rest := by
        rw [train_loader, train_loaderGo, if_pos (by simp)]
        simp
      refine ⟨by simpa [train_loader] using hflat, ?_, ?_, ?_⟩
      · rw [hgo, List.all_eq_true]
        intro g hg
        have hne := (train_loaderGo_groups rest (rowKey r) [r] (by simp) g hg).1
        simpa [List.isEmpty_iff] using hne
      · rw [hgo, List.all_eq_true]
        intro g hg
        rw [List.all_eq_true]
        intro x hx
        have := (train_loaderGo_groups rest (rowKey r) [r] (by simp) g hg).2 x hx
        simpa using this
      · rw [hgo]
        exact train_loaderGo_keys_nodup rest (rowKey r) [r] (by simp) hkp

/-- Witness for C7: a concrete pre-sorted three-row stream with two
distinct keys. -/
theorem row_grouper_spec_witness :
    (train_loader [c7r1, c7r2, c7r3]).flatten = [c7r1, c7r2, c7r3]
    ∧ ((train_loader [c7r1, c7r2, c7r3]).all (fun g => !g.isEmpty)) = true
    ∧ ((train_loader [c7r1, c7r2, c7r3]).all
        (fun g => g.all (fun r => rowKey r == groupKey g))) = true
    ∧ ((train_loader [c7r1, c7r2, c7r3]).map groupKey).Nodup :=
  row_grouper_spec [c7r1, c7r2, c7r3] (by decide)
